import Mathlib

/-!
Verification development for the ai-hedge-fund evidence pipeline and
simulation engine (`src/app/_actions.ts` and the simulation component).

Modelling conventions:
* JavaScript numbers (cash, prices, trade sizes) are modelled as exact
  rationals `ℚ`; integer-constrained fields (zod `.int()`) as `ℤ`.
* JavaScript strings are Lean `String`s; the handful of string methods the
  code uses (`trim`, `toLowerCase`, the three anchored `replace`s) are
  implemented over the character list so that they compute by `decide`.
* `null`/`undefined`/absent values are `Option`; a JS value in a boolean
  position ("falsy") is modelled by the corresponding `Option`/emptiness
  test.
* The external generative model and the JS `Date` parser are inputs of the
  functions that consume them (an oracle argument), since they are outside
  the repository; everything downstream of them is translated from the
  source.
-/

/-! ## Search result data model (`_actions.ts`) -/

/-- A Tavily search result item as the dedup/filter code touches it:
`url` and `published_date` may be absent (`none`) or present; an empty
string url is "falsy" in JS and is modelled as `some ""`. `content`
stands for the remaining payload fields. -/
structure SearchResultItem where
  url : Option String
  published_date : Option String
  content : String
deriving DecidableEq, Repr

/-- A Tavily image item (`{url, description}`). -/
structure TavilyImage where
  url : Option String
  description : Option String
deriving DecidableEq, Repr

/-- A search response as `deduplicateSearchResults` sees it.
`results = none` models a missing / non-array `results` field (the
`!searchResults || !searchResults.results || !Array.isArray` guard);
list entries are `Option _` because the filters explicitly tolerate
`null` entries (`if (!result || !result.url) return true`). -/
structure TavilySearchResponse where
  results : Option (List (Option SearchResultItem))
  images : Option (List (Option TavilyImage))
deriving DecidableEq, Repr

/-! ## `normalizeUrl` (`_actions.ts` lines 1096-1107)

```js
url.trim().toLowerCase().replace(/\/$/, "").replace(/^https?:\/\//, "").replace(/^www\./, "")
```
The JS string methods are modelled over `String.data` (the character
list) so that the kernel can evaluate them: `trim` drops whitespace at
both ends, `toLowerCase` lowers each character, and each `replace` with
an anchored pattern strips at most one occurrence. The `try/catch` in
the source is dead for string inputs (none of these methods throw) and
is not modelled. -/

/-- JS `String.prototype.trim` over a character list (ASCII whitespace). -/
def trimChars (l : List Char) : List Char :=
  ((l.dropWhile Char.isWhitespace).reverse.dropWhile Char.isWhitespace).reverse

/-- `.replace(/\/$/, "")`: strip one trailing slash. -/
def stripTrailingSlash (l : List Char) : List Char :=
  if l.getLast? = some '/' then l.dropLast else l

/-- `.replace(/^https?:\/\//, "")`: strip one leading `http://` or `https://`. -/
def stripScheme (l : List Char) : List Char :=
  if "https://".data.isPrefixOf l then l.drop 8
  else if "http://".data.isPrefixOf l then l.drop 7
  else l

/-- `.replace(/^www\./, "")`: strip one leading `www.`. -/
def stripWww (l : List Char) : List Char :=
  if "www.".data.isPrefixOf l then l.drop 4 else l

/-- `normalizeUrl` from `_actions.ts`: trim, lowercase, strip one trailing
slash, strip one leading scheme, strip one leading `www.`. -/
def normalizeUrl (url : String) : String :=
  String.mk (stripWww (stripScheme (stripTrailingSlash ((trimChars url.data).map Char.toLower))))

/-! ## `deduplicateSearchResults` (`_actions.ts` lines 1109-1154) -/

/-- The key the result-list filter tracks in its `seenUrls` set: `none`
when the entry is skipped by the `if (!result || !result.url) return true`
guard (null entry, missing url, empty-string url), otherwise the
normalized url. -/
def resultKey : Option SearchResultItem → Option String
  | none => none
  | some it =>
    match it.url with
    | none => none
    | some u => if u.isEmpty then none else some (normalizeUrl u)

/-- Same guard for the image-list filter (`if (!image || !image.url)`). -/
def imageKey : Option TavilyImage → Option String
  | none => none
  | some img =>
    match img.url with
    | none => none
    | some u => if u.isEmpty then none else some (normalizeUrl u)

/-- The `results.filter` loop of `deduplicateSearchResults` with its
mutable `seenUrls` set made explicit: keep a keyless entry, drop an entry
whose key was already seen, otherwise keep it and record its key. -/
def dedupResultsAux (seen : List String) : List (Option SearchResultItem) → List (Option SearchResultItem)
  | [] => []
  | x :: xs =>
    match resultKey x with
    | none => x :: dedupResultsAux seen xs
    | some k =>
      if k ∈ seen then dedupResultsAux seen xs
      else x :: dedupResultsAux (k :: seen) xs

/-- The `images.filter` loop with its own `seenImageUrls` set. -/
def dedupImagesAux (seen : List String) : List (Option TavilyImage) → List (Option TavilyImage)
  | [] => []
  | x :: xs =>
    match imageKey x with
    | none => x :: dedupImagesAux seen xs
    | some k =>
      if k ∈ seen then dedupImagesAux seen xs
      else x :: dedupImagesAux (k :: seen) xs

/-- `deduplicateSearchResults`: pass a response without a results array
through unchanged; otherwise dedup `results`, and dedup `images` when it
is an array. -/
def deduplicateSearchResults (searchResults : TavilySearchResponse) : TavilySearchResponse :=
  match searchResults.results with
  | none => searchResults
  | some rs =>
    { results := some (dedupResultsAux [] rs)
      images :=
        match searchResults.images with
        | none => searchResults.images
        | some is => some (dedupImagesAux [] is) }

/-! ## `filterResultsByDate` (`_actions.ts` lines 1156-1183)

The JS date parser (`new Date(s)` followed by the `isNaN(getTime())`
check) is a platform builtin outside the repository; it is passed in as
`parse : String → Option ℤ`, where `none` models an invalid date and
`some t` the millisecond timestamp. `startDate`/`endDate` are the
timestamps of the window bounds; JS `Date` comparison compares
timestamps. -/

/-- Response shape as the temporal filter touches it (its callback reads
`item.published_date` on each element, so elements are proper items). -/
structure FilterSearchResponse where
  results : Option (List SearchResultItem)
  images : Option (List TavilyImage)
deriving DecidableEq, Repr

/-- The filter predicate of `filterResultsByDate`: keep when
`published_date` is absent; drop when it fails to parse; otherwise keep
exactly when the timestamp lies in the inclusive window. -/
def keepByDate (parse : String → Option Int) (startDate endDate : Int)
    (item : SearchResultItem) : Bool :=
  match item.published_date with
  | none => true
  | some ds =>
    match parse ds with
    | none => false
    | some t => decide (startDate ≤ t ∧ t ≤ endDate)

/-- `filterResultsByDate`: null response or missing results pass through
unchanged; otherwise restrict `results` by `keepByDate`. -/
def filterResultsByDate (parse : String → Option Int)
    (searchResponse : Option FilterSearchResponse)
    (startDate endDate : Int) : Option FilterSearchResponse :=
  match searchResponse with
  | none => none
  | some r =>
    match r.results with
    | none => some r
    | some items => some { r with results := some (items.filter (keepByDate parse startDate endDate)) }

/-! ## Trading signals and `generateSignals` (`_actions.ts` lines 956-1036) -/

/-- Directional signal enum of the zod schema. -/
inductive MarketSignal where
  | bullish
  | bearish
  | neutral
deriving DecidableEq, Repr

/-- Action enum of the zod schema. -/
inductive TradeAction where
  | buy
  | cover
  | sell
  | short
  | hold
deriving DecidableEq, Repr

/-- The `StockSignal` object shape (zod schema / the component's
interface): enums are enforced by the type, the numeric range checks of
the schema are separate (`signalSchemaValid`). -/
structure StockSignal where
  signal : MarketSignal
  confidence : Int
  action : TradeAction
  stocks : Int
  reason : String
deriving DecidableEq, Repr

/-- The numeric constraints of the zod schema in `generateSignals`:
`confidence` in `[0, 100]` (`.min(0).max(100).int()`), `stocks ≥ 0`
(`.min(0).int()`). Integrality is carried by the `Int` type. -/
def signalSchemaValid (s : StockSignal) : Prop :=
  0 ≤ s.confidence ∧ s.confidence ≤ 100 ∧ 0 ≤ s.stocks

instance : DecidablePred signalSchemaValid := fun s =>
  inferInstanceAs (Decidable (0 ≤ s.confidence ∧ s.confidence ≤ 100 ∧ 0 ≤ s.stocks))

/-- Result shape `{success, data?, error?}` returned by `generateSignals`. -/
structure SignalResult where
  success : Bool
  data : Option StockSignal
  error : Option String
deriving DecidableEq, Repr

/-- `generateSignals`, with the external model's raw structured output as
input: `generateObject` validates the output against the zod schema and
throws on violation, which the `catch` turns into `{success:false}`;
a schema-conformant object is returned unchanged as
`{success:true, data:object}`. No further post-processing occurs between
the model output and the returned signal. -/
def generateSignals (modelOutput : StockSignal) : SignalResult :=
  if signalSchemaValid modelOutput then
    { success := true, data := some modelOutput, error := none }
  else
    { success := false, data := none, error := some "An error occurred" }

/-! ## Simulation engine (`handleRunSimulation`, simulation component) -/

/-- A historical quote `{date, close}`; `runSimulation` receives the
quotes already in ascending date order (the component sorts them before
the loop), so the date is kept only as a label. -/
structure HistoricalQuote where
  date : String
  close : ℚ
deriving DecidableEq, Repr

/-- One simulated day's external-call outcomes: the four awaited
sub-steps of the per-day `try` block (`generateQueries`, `fetchData`,
`sanitizeData`, `generateSignals`), each either succeeding or failing
with the message the component would throw. The intermediate payloads of
the first three steps only feed the next external call, so they are
elided to `Unit`; the signal step's success carries the day's
`StockSignal`. -/
structure DayOracle where
  queries : Except String Unit
  fetchNews : Except String Unit
  sanitize : Except String Unit
  signal : Except String StockSignal

/-- The per-day `try` block up to the trade switch: the first failing
sub-step throws and aborts the day, otherwise the day's signal is
produced. -/
def dayPipeline (o : DayOracle) : Except String StockSignal := do
  let _ ← o.queries
  let _ ← o.fetchNews
  let _ ← o.sanitize
  o.signal

/-- A `SimulationDayLog` entry as the component logs it. Optional fields
are absent (`none`) exactly when the component leaves them `undefined`
(e.g. the synthetic Start entry, or a suppressed hold action). -/
structure SimulationDayLog where
  date : String
  price : ℚ
  signal : Option MarketSignal
  action : Option TradeAction
  sharesTraded : Option ℚ
  sharesHeld : ℚ
  cash : ℚ
  portfolioValue : ℚ
  reason : Option String
  error : Option String
deriving DecidableEq, Repr

/-- The trade-execution `switch (daySignal.action)` of the simulation
loop (lines 204-250): returns the effective action (after any downgrade
to hold), the shares traded, and the updated cash and shares. -/
def execTrade (action : TradeAction) (sharesToTrade price cash sharesHeld : ℚ) :
    TradeAction × ℚ × ℚ × ℚ :=
  match action with
  | .buy =>
    if sharesToTrade * price ≤ cash then
      (.buy, sharesToTrade, cash - sharesToTrade * price, sharesHeld + sharesToTrade)
    else
      (.hold, 0, cash, sharesHeld)
  | .sell =>
    if 0 < sharesHeld then
      let sharesTraded := min sharesToTrade sharesHeld
      (.sell, sharesTraded, cash + sharesTraded * price, sharesHeld - sharesTraded)
    else
      (.hold, 0, cash, sharesHeld)
  | .short => (.hold, 0, cash, sharesHeld)
  | .cover => (.hold, 0, cash, sharesHeld)
  | .hold => (.hold, 0, cash, sharesHeld)

/-- One iteration of the simulation loop (lines 164-302): run the day's
pipeline; on failure record the error (`err.message` with the JS falsy
fallback) with `sharesTraded = 0` and unchanged state, otherwise execute
the trade; recompute the portfolio value at the day's close; normalize
the logged action/shares (sells/shorts negative, hold with no position
and no error suppressed); return the log entry and the carried state. -/
def simStep (sharesToTrade : ℚ) (o : DayOracle) (q : HistoricalQuote)
    (cash sharesHeld : ℚ) : SimulationDayLog × ℚ × ℚ :=
  match dayPipeline o with
  | .error msg =>
    let dayError := if msg.isEmpty then "An error occurred this day." else msg
    ({ date := q.date, price := q.close, signal := none, action := none,
       sharesTraded := some 0, sharesHeld := sharesHeld, cash := cash,
       portfolioValue := cash + sharesHeld * q.close, reason := none,
       error := some dayError }, cash, sharesHeld)
  | .ok sig =>
    let r := execTrade sig.action sharesToTrade q.close cash sharesHeld
    let effAction := r.1
    let traded := r.2.1
    let cash' := r.2.2.1
    let sharesHeld' := r.2.2.2
    let value := cash' + sharesHeld' * q.close
    let signedTraded : ℚ :=
      if effAction = .sell ∨ effAction = .short then -|traded| else |traded|
    if effAction = .hold ∧ sharesHeld' = 0 then
      ({ date := q.date, price := q.close, signal := some sig.signal, action := none,
         sharesTraded := some 0, sharesHeld := sharesHeld', cash := cash',
         portfolioValue := value,
         reason := some (if sig.reason.isEmpty then "No position to hold." else sig.reason),
         error := none }, cash', sharesHeld')
    else
      ({ date := q.date, price := q.close, signal := some sig.signal,
         action := some effAction, sharesTraded := some signedTraded,
         sharesHeld := sharesHeld', cash := cash', portfolioValue := value,
         reason := some sig.reason, error := none }, cash', sharesHeld')

/-- The `for (let i = 1; i < historicalQuotes.length; i++)` loop: one
`simStep` per remaining quote, threading cash and shares; returns the
day entries in order plus the final state. -/
def runDays (sharesToTrade : ℚ) (oracle : Nat → DayOracle) :
    List HistoricalQuote → Nat → ℚ → ℚ → List SimulationDayLog × ℚ × ℚ
  | [], _, cash, sharesHeld => ([], cash, sharesHeld)
  | q :: rest, i, cash, sharesHeld =>
    let r := simStep sharesToTrade (oracle i) q cash sharesHeld
    let next := runDays sharesToTrade oracle rest (i + 1) r.2.1 r.2.2
    (r.1 :: next.1, next.2)

/-- The component's fixed trade size (`useState<number>(100)`, no setter). -/
def tradeSize : ℚ := 100

/-- The component's fixed starting cash (`useState<number>(10000)`, no setter). -/
def initialCash : ℚ := 10000

/-- `handleRunSimulation` after ticker validation and the historical
fetch, on the sorted quote list: fewer than 2 quotes is a fatal
initialization error; otherwise the first quote seeds the synthetic
Start entry and initial portfolio value, every later quote is one
simulated day, and the final portfolio value is taken at the last
quote's close. -/
def runSimulation (initCash initShares sharesToTrade : ℚ) (oracle : Nat → DayOracle)
    (historicalQuotes : List HistoricalQuote) :
    Except String (List SimulationDayLog × ℚ) :=
  match historicalQuotes with
  | [] => .error "No historical stock data found in the required range."
  | q0 :: rest =>
    if rest.isEmpty then .error "Not enough historical data points to run simulation."
    else
      let startEntry : SimulationDayLog :=
        { date := "Start", price := q0.close, signal := none, action := none,
          sharesTraded := none, sharesHeld := initShares, cash := initCash,
          portfolioValue := initCash + initShares * q0.close, reason := none,
          error := none }
      let r := runDays sharesToTrade oracle rest 1 initCash initShares
      let finalPrice := ((q0 :: rest).getLastD q0).close
      .ok (startEntry :: r.1, r.2.1 + r.2.2 * finalPrice)

/-! ## Spec-side definitions for the refinement claims -/

/-- Modelled from the spec: the Portfolio Accounting rules of §4.10 as
the spec words them — buy: if `cash ≥ Q*price` then
`sharesHeld += Q; cash -= Q*price`, else downgrade to hold with
`traded = 0`; sell: `traded = min(Q, sharesHeld)`, if `sharesHeld > 0`
then `sharesHeld -= traded; cash += traded*price`, else downgrade to
hold; short and cover always downgrade to hold with `traded = 0`; hold
changes nothing. -/
def portfolioAccountingSpec (action : TradeAction) (q price cash sharesHeld : ℚ) :
    TradeAction × ℚ × ℚ × ℚ :=
  match action with
  | .buy =>
    if cash ≥ q * price then (.buy, q, cash - q * price, sharesHeld + q)
    else (.hold, 0, cash, sharesHeld)
  | .sell =>
    let traded := min q sharesHeld
    if sharesHeld > 0 then (.sell, traded, cash + traded * price, sharesHeld - traded)
    else (.hold, 0, cash, sharesHeld)
  | .short => (.hold, 0, cash, sharesHeld)
  | .cover => (.hold, 0, cash, sharesHeld)
  | .hold => (.hold, 0, cash, sharesHeld)

/-- Modelled from the spec: the deduplication semantics as claim C8
words it — keep, in original order, exactly the first occurrence of each
normalized-URL key; entries without a key are always kept. `earlier`
accumulates the keys of all already-processed entries, so an entry is
kept iff no strictly earlier entry of the input has the same key. -/
def specFirstOccurGo (earlier : List String) :
    List (Option SearchResultItem) → List (Option SearchResultItem)
  | [] => []
  | x :: xs =>
    match resultKey x with
    | none => x :: specFirstOccurGo earlier xs
    | some k =>
      if k ∈ earlier then specFirstOccurGo (k :: earlier) xs
      else x :: specFirstOccurGo (k :: earlier) xs

/-- First-occurrence semantics for the whole results list. -/
def specFirstOccur (l : List (Option SearchResultItem)) : List (Option SearchResultItem) :=
  specFirstOccurGo [] l

/-! ## Concrete inputs used by the scenario theorems and witnesses -/

/-- The guard `if (!result || !result.url) return true` of the results
filter as a predicate: a null entry, a missing url, or an empty url. -/
def resultNoUrl : Option SearchResultItem → Bool
  | none => true
  | some it =>
    match it.url with
    | none => true
    | some u => u.isEmpty

/-- The guard `if (!image || !image.url) return true` of the images filter. -/
def imageNoUrl : Option TavilyImage → Bool
  | none => true
  | some img =>
    match img.url with
    | none => true
    | some u => u.isEmpty

/-- First of the two spec-example items whose urls normalize alike. -/
def exampleItemA : SearchResultItem :=
  { url := some "http://WWW.Example.com/a/", published_date := none, content := "A" }

/-- Second spec-example item; same normalized key as `exampleItemA`. -/
def exampleItemB : SearchResultItem :=
  { url := some "https://example.com/a", published_date := none, content := "B" }

/-- A schema-valid model output that violates the confidence-to-action
banding: confidence 10 (≤ 30) with a sell action. -/
def bandingCounterSignal : StockSignal :=
  { signal := .bearish, confidence := 10, action := .sell, stocks := 50,
    reason := "weak and contradictory evidence" }

/-- A schema-valid, banding-respecting model output. -/
def wellFormedSignal : StockSignal :=
  { signal := .bullish, confidence := 80, action := .buy, stocks := 100,
    reason := "strong recent evidence" }

/-- An all-steps-succeed day oracle producing the given signal. -/
def okDay (s : StockSignal) : DayOracle :=
  { queries := .ok (), fetchNews := .ok (), sanitize := .ok (), signal := .ok s }

/-- A day oracle whose evidence fetch throws with the given message. -/
def fetchFailDay (msg : String) : DayOracle :=
  { queries := .ok (), fetchNews := .error msg, sanitize := .ok (),
    signal := .ok { signal := .neutral, confidence := 0, action := .hold, stocks := 0,
                    reason := "unreached" } }

/-- A buy signal for the end-to-end scenario's day d1. -/
def scenarioBuySignal : StockSignal :=
  { signal := .bullish, confidence := 80, action := .buy, stocks := 100, reason := "r1" }

/-- A sell signal for the end-to-end scenario's day d2. -/
def scenarioSellSignal : StockSignal :=
  { signal := .bearish, confidence := 80, action := .sell, stocks := 100, reason := "r2" }

/-- The 3-quote price series of the end-to-end scenario. -/
def scenarioQuotes : List HistoricalQuote :=
  [{ date := "d0", close := 100 }, { date := "d1", close := 105 }, { date := "d2", close := 95 }]

/-- The signal sequence `[buy, sell]` of the end-to-end scenario. -/
def scenarioOracle : Nat → DayOracle
  | 1 => okDay scenarioBuySignal
  | 2 => okDay scenarioSellSignal
  | _ => okDay { signal := .neutral, confidence := 0, action := .hold, stocks := 0,
                 reason := "unused" }

/-- A price series whose second close is negative. -/
def negPriceQuotes : List HistoricalQuote :=
  [{ date := "d0", close := 1 }, { date := "d1", close := -200 }]

/-- An oracle that always sells. -/
def sellOracle : Nat → DayOracle := fun _ => okDay scenarioSellSignal

/-- A 2-quote series for the witness runs. -/
def witnessQuotes : List HistoricalQuote :=
  [{ date := "w0", close := 1 }, { date := "w1", close := 2 }]

/-- An oracle whose every day fails its evidence fetch. -/
def failOracle : Nat → DayOracle := fun _ => fetchFailDay "boom"

/-- The log of the witness run in which a buy executes. -/
def witnessBuyLog : List SimulationDayLog :=
  [{ date := "Start", price := 1, signal := none, action := none,
     sharesTraded := none, sharesHeld := 0, cash := 10000,
     portfolioValue := 10000, reason := none, error := none },
   { date := "w1", price := 2, signal := some .bullish, action := some .buy,
     sharesTraded := some 100, sharesHeld := 100, cash := 9800,
     portfolioValue := 10000, reason := some "r1", error := none }]

/-- The log of the witness run whose single day fails. -/
def witnessErrLog : List SimulationDayLog :=
  [{ date := "Start", price := 1, signal := none, action := none,
     sharesTraded := none, sharesHeld := 0, cash := 10000,
     portfolioValue := 10000, reason := none, error := none },
   { date := "w1", price := 2, signal := none, action := none,
     sharesTraded := some 0, sharesHeld := 0, cash := 10000,
     portfolioValue := 10000, reason := none, error := some "boom" }]

/-! ## Helper lemmas: deduplication -/

/-- An entry has no dedup key exactly when the `!result || !result.url`
guard keeps it unconditionally. -/
lemma resultKey_eq_none_iff (x : Option SearchResultItem) :
    resultKey x = none ↔ resultNoUrl x = true := by
  cases x with
  | none => simp [resultKey, resultNoUrl]
  | some it =>
    cases hu : it.url with
    | none => simp [resultKey, resultNoUrl, hu]
    | some u => by_cases he : u.isEmpty <;> simp [resultKey, resultNoUrl, hu, he]

/-- Image-filter analogue of `resultKey_eq_none_iff`. -/
lemma imageKey_eq_none_iff (x : Option TavilyImage) :
    imageKey x = none ↔ imageNoUrl x = true := by
  cases x with
  | none => simp [imageKey, imageNoUrl]
  | some img =>
    cases hu : img.url with
    | none => simp [imageKey, imageNoUrl, hu]
    | some u => by_cases he : u.isEmpty <;> simp [imageKey, imageNoUrl, hu, he]

/-- A second pass of the results filter removes nothing. -/
lemma dedupResultsAux_idem (l : List (Option SearchResultItem)) :
    ∀ seen, dedupResultsAux seen (dedupResultsAux seen l) = dedupResultsAux seen l := by
  induction l with
  | nil => intro seen; rfl
  | cons x xs ih =>
    intro seen
    cases hk : resultKey x with
    | none => simp [dedupResultsAux, hk, ih]
    | some k =>
      by_cases hmem : k ∈ seen
      · simp [dedupResultsAux, hk, hmem, ih]
      · simp [dedupResultsAux, hk, hmem, ih]

/-- A second pass of the images filter removes nothing. -/
lemma dedupImagesAux_idem (l : List (Option TavilyImage)) :
    ∀ seen, dedupImagesAux seen (dedupImagesAux seen l) = dedupImagesAux seen l := by
  induction l with
  | nil => intro seen; rfl
  | cons x xs ih =>
    intro seen
    cases hk : imageKey x with
    | none => simp [dedupImagesAux, hk, ih]
    | some k =>
      by_cases hmem : k ∈ seen
      · simp [dedupImagesAux, hk, hmem, ih]
      · simp [dedupImagesAux, hk, hmem, ih]

/-- The results filter never drops a keyless (no-url) entry. -/
lemma dedupResultsAux_filter_noUrl (l : List (Option SearchResultItem)) :
    ∀ seen, (dedupResultsAux seen l).filter resultNoUrl = l.filter resultNoUrl := by
  induction l with
  | nil => intro seen; rfl
  | cons x xs ih =>
    intro seen
    cases hk : resultKey x with
    | none =>
      have hx : resultNoUrl x = true := (resultKey_eq_none_iff x).1 hk
      simp [dedupResultsAux, hk, List.filter, hx, ih]
    | some k =>
      have hx : ¬ resultNoUrl x = true := by
        intro h
        rw [← resultKey_eq_none_iff] at h
        rw [h] at hk
        cases hk
      by_cases hmem : k ∈ seen
      · simp [dedupResultsAux, hk, hmem, List.filter, hx, ih]
      · simp [dedupResultsAux, hk, hmem, List.filter, hx, ih]

/-- The images filter never drops a keyless (no-url) entry. -/
lemma dedupImagesAux_filter_noUrl (l : List (Option TavilyImage)) :
    ∀ seen, (dedupImagesAux seen l).filter imageNoUrl = l.filter imageNoUrl := by
  induction l with
  | nil => intro seen; rfl
  | cons x xs ih =>
    intro seen
    cases hk : imageKey x with
    | none =>
      have hx : imageNoUrl x = true := (imageKey_eq_none_iff x).1 hk
      simp [dedupImagesAux, hk, List.filter, hx, ih]
    | some k =>
      have hx : ¬ imageNoUrl x = true := by
        intro h
        rw [← imageKey_eq_none_iff] at h
        rw [h] at hk
        cases hk
      by_cases hmem : k ∈ seen
      · simp [dedupImagesAux, hk, hmem, List.filter, hx, ih]
      · simp [dedupImagesAux, hk, hmem, List.filter, hx, ih]

/-- The mutable-set filter agrees with the spec's first-occurrence
semantics whenever the seen set and the processed-prefix key set have
the same members. -/
lemma dedupResultsAux_eq_specGo (l : List (Option SearchResultItem)) :
    ∀ seen earlier, (∀ k, k ∈ seen ↔ k ∈ earlier) →
      dedupResultsAux seen l = specFirstOccurGo earlier l := by
  induction l with
  | nil => intro seen earlier _; rfl
  | cons x xs ih =>
    intro seen earlier hiff
    cases hk : resultKey x with
    | none => simp [dedupResultsAux, specFirstOccurGo, hk, ih _ _ hiff]
    | some k =>
      by_cases hmem : k ∈ seen
      · have hk' : k ∈ earlier := (hiff k).1 hmem
        have hiff' : ∀ k', k' ∈ seen ↔ k' ∈ k :: earlier := by
          intro k'
          constructor
          · intro h; exact List.mem_cons_of_mem _ ((hiff k').1 h)
          · intro h
            rcases List.mem_cons.1 h with h | h
            · subst h; exact hmem
            · exact (hiff k').2 h
        simp [dedupResultsAux, specFirstOccurGo, hk, hmem, hk', ih _ _ hiff']
      · have hk' : k ∉ earlier := fun h => hmem ((hiff k).2 h)
        have hiff' : ∀ k', k' ∈ k :: seen ↔ k' ∈ k :: earlier := by
          intro k'
          simp only [List.mem_cons]
          exact or_congr Iff.rfl (hiff k')
        simp [dedupResultsAux, specFirstOccurGo, hk, hmem, hk', ih _ _ hiff']

/-! ## Theorems for the evidence-pipeline claims -/

/-- C6 (counterexample): the claim "confidence ≤ 30 implies action == hold
for every successfully returned signal" is false on the code:
`generateSignals` returns any schema-conformant model output unchanged,
and a confidence-10 sell signal is schema-conformant, so it is returned
with `success = true`. -/
theorem generateSignals_banding_counterexample :
    (generateSignals bandingCounterSignal).success = true ∧
    (generateSignals bandingCounterSignal).data = some bandingCounterSignal ∧
    bandingCounterSignal.confidence ≤ 30 ∧
    bandingCounterSignal.action ≠ TradeAction.hold := by
  refine ⟨?_, ?_, ?_, ?_⟩ <;> decide

/-- C6 (amended): every signal object returned successfully by the
signal-generation step is the model's output unchanged and satisfies the
zod schema bounds — confidence an integer in [0, 100] and a nonnegative
integer share count; the confidence-to-action banding and the
hold-implies-zero-stocks rule are prompt instructions to the external
model, not enforced by the code. -/
theorem generateSignals_schema_bounds (modelOutput s : StockSignal)
    (h : (generateSignals modelOutput).data = some s) :
    s = modelOutput ∧ 0 ≤ s.confidence ∧ s.confidence ≤ 100 ∧ 0 ≤ s.stocks := by
  unfold generateSignals at h
  split at h
  · next hv =>
    obtain rfl : s = modelOutput := by
      simpa using h.symm
    exact ⟨rfl, hv.1, hv.2.1, hv.2.2⟩
  · simp at h

/-- Witness for `generateSignals_schema_bounds` at a concrete valid output. -/
theorem generateSignals_schema_bounds_witness :
    wellFormedSignal = wellFormedSignal ∧ 0 ≤ wellFormedSignal.confidence ∧
    wellFormedSignal.confidence ≤ 100 ∧ 0 ≤ wellFormedSignal.stocks :=
  generateSignals_schema_bounds wellFormedSignal wellFormedSignal (by decide)

/-- C7: the temporal filter's policy, as a characterization of which
items survive: an item with no `published_date` is kept; one whose date
fails to parse is dropped; one whose parsed timestamp lies in the
inclusive window — boundary timestamps included — is kept; one whose
timestamp falls outside the window on either side is dropped. `parse`
is the JS `new Date(...).getTime()` parser with `NaN` as `none`. -/
theorem filterResultsByDate_policy (parse : String → Option Int) (startDate endDate : Int)
    (images : Option (List TavilyImage)) (items : List SearchResultItem)
    (item : SearchResultItem) :
    ∃ kept, filterResultsByDate parse (some ⟨some items, images⟩) startDate endDate =
        some ⟨some kept, images⟩ ∧
      (item ∈ kept ↔ item ∈ items ∧
        (item.published_date = none ∨
          ∃ ds t, item.published_date = some ds ∧ parse ds = some t ∧
            startDate ≤ t ∧ t ≤ endDate)) := by
  refine ⟨items.filter (keepByDate parse startDate endDate), rfl, ?_⟩
  rw [List.mem_filter]
  apply and_congr_right
  intro _
  cases hd : item.published_date with
  | none => simp [keepByDate, hd]
  | some ds =>
    cases hp : parse ds with
    | none => simp [keepByDate, hd, hp]
    | some t => simp [keepByDate, hd, hp]

/-- C8: the deduplicator keeps, in stable order, exactly the first
occurrence of each normalized-URL key (refinement of the mutable-set
filter against the spec's first-occurrence semantics), and in
particular `http://WWW.Example.com/a/` and `https://example.com/a`
normalize to the same key, so of two such items only the first survives. -/
theorem dedup_first_occurrence (results : List (Option SearchResultItem))
    (images : Option (List (Option TavilyImage))) :
    (deduplicateSearchResults ⟨some results, images⟩).results = some (specFirstOccur results) ∧
    normalizeUrl "http://WWW.Example.com/a/" = normalizeUrl "https://example.com/a" ∧
    dedupResultsAux [] [some exampleItemA, some exampleItemB] = [some exampleItemA] := by
  refine ⟨?_, by decide, by decide⟩
  simp only [deduplicateSearchResults, specFirstOccur]
  exact congrArg some (dedupResultsAux_eq_specGo results [] [] (by simp))

/-- C9: deduplication is idempotent — a second pass removes nothing from
either the results or the images list. -/
theorem deduplicateSearchResults_idempotent (r : TavilySearchResponse) :
    deduplicateSearchResults (deduplicateSearchResults r) = deduplicateSearchResults r := by
  rcases r with ⟨results, images⟩
  cases results with
  | none => rfl
  | some rs =>
    cases images with
    | none =>
      simp [deduplicateSearchResults, dedupResultsAux_idem]
    | some is =>
      simp [deduplicateSearchResults, dedupResultsAux_idem, dedupImagesAux_idem]

/-- C10: entries that are null or have a missing/empty url are always
kept by the deduplicator — the no-url sublists of `results` and `images`
are preserved verbatim, duplicates included. -/
theorem dedup_keeps_urlless (results : List (Option SearchResultItem))
    (images : List (Option TavilyImage)) :
    ∃ results' images',
      deduplicateSearchResults ⟨some results, some images⟩ = ⟨some results', some images'⟩ ∧
      results'.filter resultNoUrl = results.filter resultNoUrl ∧
      images'.filter imageNoUrl = images.filter imageNoUrl :=
  ⟨dedupResultsAux [] results, dedupImagesAux [] images, rfl,
    dedupResultsAux_filter_noUrl results [], dedupImagesAux_filter_noUrl images []⟩

/-! ## Helper lemmas: simulation engine -/

/-- The trade switch never lets cash or shares go negative when the
trade size, price and incoming state are nonnegative. -/
lemma execTrade_nonneg (a : TradeAction) (q p c s : ℚ) (hq : 0 ≤ q) (hp : 0 ≤ p)
    (hc : 0 ≤ c) (hs : 0 ≤ s) :
    0 ≤ (execTrade a q p c s).2.2.1 ∧ 0 ≤ (execTrade a q p c s).2.2.2 := by
  cases a with
  | buy =>
    by_cases h : q * p ≤ c
    · simp only [execTrade, if_pos h]
      exact ⟨by linarith, by linarith⟩
    · simp only [execTrade, if_neg h]
      exact ⟨hc, hs⟩
  | sell =>
    by_cases h : 0 < s
    · have hmin : 0 ≤ min q s := le_min hq hs
      have hms : min q s ≤ s := min_le_right q s
      simp only [execTrade, if_pos h]
      exact ⟨by nlinarith, by linarith⟩
    · simp only [execTrade, if_neg h]
      exact ⟨hc, hs⟩
  | short => exact ⟨hc, hs⟩
  | cover => exact ⟨hc, hs⟩
  | hold => exact ⟨hc, hs⟩

/-- The trade switch leaves the action `buy` only when the cash guard held. -/
lemma execTrade_buy_le (a : TradeAction) (q p c s : ℚ)
    (h : (execTrade a q p c s).1 = .buy) : q * p ≤ c := by
  cases a with
  | buy =>
    by_cases hg : q * p ≤ c
    · exact hg
    · simp only [execTrade, if_neg hg] at h
      cases h
  | sell =>
    by_cases hg : 0 < s
    · simp only [execTrade, if_pos hg] at h
      cases h
    · simp only [execTrade, if_neg hg] at h
      cases h
  | short => cases h
  | cover => cases h
  | hold => cases h

/-- The error branch of the simulation loop body, explicitly. -/
lemma simStep_error_eq (Q : ℚ) (o : DayOracle) (q : HistoricalQuote) (c s : ℚ) (msg : String)
    (h : dayPipeline o = .error msg) :
    simStep Q o q c s =
      ({ date := q.date, price := q.close, signal := none, action := none,
         sharesTraded := some 0, sharesHeld := s, cash := c,
         portfolioValue := c + s * q.close, reason := none,
         error := some (if msg.isEmpty then "An error occurred this day." else msg) }, c, s) := by
  simp [simStep, h]

/-- The logged `cash` is exactly the carried-forward cash. -/
lemma simStep_entry_cash (Q : ℚ) (o : DayOracle) (q : HistoricalQuote) (c s : ℚ) :
    ((simStep Q o q c s).1).cash = (simStep Q o q c s).2.1 := by
  rcases h : dayPipeline o with msg | sig
  · simp [simStep, h]
  · simp only [simStep, h]
    split <;> rfl

/-- The logged `sharesHeld` is exactly the carried-forward share count. -/
lemma simStep_entry_shares (Q : ℚ) (o : DayOracle) (q : HistoricalQuote) (c s : ℚ) :
    ((simStep Q o q c s).1).sharesHeld = (simStep Q o q c s).2.2 := by
  rcases h : dayPipeline o with msg | sig
  · simp [simStep, h]
  · simp only [simStep, h]
    split <;> rfl

/-- The logged `price` is the day's close. -/
lemma simStep_entry_price (Q : ℚ) (o : DayOracle) (q : HistoricalQuote) (c s : ℚ) :
    ((simStep Q o q c s).1).price = q.close := by
  rcases h : dayPipeline o with msg | sig
  · simp [simStep, h]
  · simp only [simStep, h]
    split <;> rfl

/-- Every day entry's logged portfolio value is its logged cash plus its
logged shares at its logged price. -/
lemma simStep_entry_value (Q : ℚ) (o : DayOracle) (q : HistoricalQuote) (c s : ℚ) :
    ((simStep Q o q c s).1).portfolioValue =
      ((simStep Q o q c s).1).cash +
        ((simStep Q o q c s).1).sharesHeld * ((simStep Q o q c s).1).price := by
  rcases h : dayPipeline o with msg | sig
  · simp [simStep, h]
  · simp only [simStep, h]
    split <;> rfl

/-- A day entry records action `buy` only when the cash guard held at
the day's opening state. -/
lemma simStep_buy_guard (Q : ℚ) (o : DayOracle) (q : HistoricalQuote) (c s : ℚ)
    (h : ((simStep Q o q c s).1).action = some .buy) : Q * q.close ≤ c := by
  rcases hdp : dayPipeline o with msg | sig
  · rw [simStep_error_eq Q o q c s msg hdp] at h
    cases h
  · simp only [simStep, hdp] at h
    split at h
    · cases h
    · exact execTrade_buy_le sig.action Q q.close c s (by injection h)

/-- The carried state is nonnegative whenever the incoming state, the
trade size and the day's close are. -/
lemma simStep_nonneg (Q : ℚ) (o : DayOracle) (q : HistoricalQuote) (c s : ℚ)
    (hQ : 0 ≤ Q) (hp : 0 ≤ q.close) (hc : 0 ≤ c) (hs : 0 ≤ s) :
    0 ≤ (simStep Q o q c s).2.1 ∧ 0 ≤ (simStep Q o q c s).2.2 := by
  rcases hdp : dayPipeline o with msg | sig
  · rw [simStep_error_eq Q o q c s msg hdp]
    exact ⟨hc, hs⟩
  · have := execTrade_nonneg sig.action Q q.close c s hQ hp hc hs
    simp only [simStep, hdp]
    split
    · exact ⟨this.1, this.2⟩
    · exact ⟨this.1, this.2⟩

/-- A day entry carries an error exactly when the day's pipeline failed;
in that case the state is carried through unchanged and the logged trade
is zero. -/
lemma simStep_ok_error_none (Q : ℚ) (o : DayOracle) (q : HistoricalQuote) (c s : ℚ)
    (sig : StockSignal) (h : dayPipeline o = .ok sig) :
    ((simStep Q o q c s).1).error = none := by
  simp only [simStep, h]
  split <;> rfl

/-- One log entry per remaining quote. -/
lemma runDays_length (Q : ℚ) (oracle : Nat → DayOracle) :
    ∀ (qs : List HistoricalQuote) (i : Nat) (c s : ℚ),
      ((runDays Q oracle qs i c s).1).length = qs.length := by
  intro qs
  induction qs with
  | nil => intro i c s; rfl
  | cons q rest ih => intro i c s; simp [runDays, ih]

/-- Value reconciliation holds for every entry the day loop produces. -/
lemma runDays_mem_value (Q : ℚ) (oracle : Nat → DayOracle) :
    ∀ (qs : List HistoricalQuote) (i : Nat) (c s : ℚ),
      ∀ e ∈ (runDays Q oracle qs i c s).1,
        e.portfolioValue = e.cash + e.sharesHeld * e.price := by
  intro qs
  induction qs with
  | nil => intro i c s e he; cases he
  | cons q rest ih =>
    intro i c s e he
    simp only [runDays, List.mem_cons] at he
    rcases he with rfl | he
    · exact simStep_entry_value Q (oracle i) q c s
    · exact ih _ _ _ e he

/-- Nonnegativity of cash and shares in every entry, given nonnegative
trade size, closes, and initial state. -/
lemma runDays_mem_nonneg (Q : ℚ) (oracle : Nat → DayOracle) (hQ : 0 ≤ Q) :
    ∀ (qs : List HistoricalQuote) (i : Nat) (c s : ℚ),
      (∀ q ∈ qs, 0 ≤ q.close) → 0 ≤ c → 0 ≤ s →
      ∀ e ∈ (runDays Q oracle qs i c s).1, 0 ≤ e.sharesHeld ∧ 0 ≤ e.cash := by
  intro qs
  induction qs with
  | nil => intro i c s _ _ _ e he; cases he
  | cons q rest ih =>
    intro i c s hq hc hs e he
    have hstep := simStep_nonneg Q (oracle i) q c s hQ (hq q (List.mem_cons_self q rest)) hc hs
    simp only [runDays, List.mem_cons] at he
    rcases he with rfl | he
    · rw [simStep_entry_shares, simStep_entry_cash]
      exact ⟨hstep.2, hstep.1⟩
    · exact ih _ _ _ (fun q' hq' => hq q' (List.mem_cons_of_mem q hq')) hstep.1 hstep.2 e he

/-- Shape of the `j`-th entry of the day loop: it is the `simStep` of the
`j`-th remaining quote against the state carried out of the previous
entry (or the incoming state for the first entry). -/
lemma runDays_get? (Q : ℚ) (oracle : Nat → DayOracle) :
    ∀ (qs : List HistoricalQuote) (i : Nat) (c s : ℚ) (j : Nat) (e : SimulationDayLog),
      ((runDays Q oracle qs i c s).1).get? j = some e →
      ∃ quote cj sj, qs.get? j = some quote ∧
        (simStep Q (oracle (i + j)) quote cj sj).1 = e ∧
        (j = 0 → cj = c ∧ sj = s) ∧
        (∀ jj, j = jj + 1 →
          ∃ ep, ((runDays Q oracle qs i c s).1).get? jj = some ep ∧
            ep.cash = cj ∧ ep.sharesHeld = sj) := by
  intro qs
  induction qs with
  | nil => intro i c s j e he; cases he
  | cons q rest ih =>
    intro i c s j e he
    match j with
    | 0 =>
      simp only [runDays, List.get?_cons_zero, Option.some.injEq] at he
      exact ⟨q, c, s, rfl, by rw [Nat.add_zero]; exact he,
        fun _ => ⟨rfl, rfl⟩, fun jj h => absurd h (by omega)⟩
    | Nat.succ jj =>
      simp only [runDays, List.get?_cons_succ] at he
      obtain ⟨quote, cj, sj, hquote, hstep, hzero, hsucc⟩ := ih (i + 1) _ _ jj e he
      refine ⟨quote, cj, sj, by simpa using hquote, ?_, fun h => absurd h (by omega), ?_⟩
      · have harith : i + 1 + jj = i + (jj + 1) := by omega
        rw [← harith]
        exact hstep
      · intro kk hkk
        have hkj : kk = jj := by omega
        subst hkj
        cases kk with
        | zero =>
          obtain ⟨rfl, rfl⟩ := hzero rfl
          refine ⟨(simStep Q (oracle i) q c s).1, by simp [runDays], ?_, ?_⟩
          · exact simStep_entry_cash Q (oracle i) q c s
          · exact simStep_entry_shares Q (oracle i) q c s
        | succ ll =>
          obtain ⟨ep, hep, hc, hs⟩ := hsucc ll rfl
          exact ⟨ep, by simpa [runDays] using hep, hc, hs⟩

/-- A successful run unpacks into the synthetic Start entry followed by
the day-loop entries over the tail of the quote list. -/
lemma runSimulation_ok_shape (initCash initShares Q : ℚ) (oracle : Nat → DayOracle)
    (quotes : List HistoricalQuote) (log : List SimulationDayLog) (finalValue : ℚ)
    (hrun : runSimulation initCash initShares Q oracle quotes = .ok (log, finalValue)) :
    ∃ q0 rest, quotes = q0 :: rest ∧ rest ≠ [] ∧
      log = { date := "Start", price := q0.close, signal := none, action := none,
              sharesTraded := none, sharesHeld := initShares, cash := initCash,
              portfolioValue := initCash + initShares * q0.close, reason := none,
              error := none } :: (runDays Q oracle rest 1 initCash initShares).1 := by
  cases quotes with
  | nil => simp [runSimulation] at hrun
  | cons q0 rest =>
    by_cases hre : rest.isEmpty = true
    · simp [runSimulation, hre] at hrun
    · refine ⟨q0, rest, rfl, by simpa using hre, ?_⟩
      simp only [runSimulation, if_neg hre, Except.ok.injEq, Prod.mk.injEq] at hrun
      exact hrun.1.symm

/-- C1: trade execution in the simulation engine follows the spec's
Portfolio Accounting rules — buy executes exactly when `cash ≥ Q*price`
and otherwise downgrades to hold with 0 traded; sell with a position
trades `min(Q, sharesHeld)` and otherwise downgrades to hold; short and
cover always downgrade to hold leaving the state unchanged; hold changes
nothing. -/
theorem execTrade_follows_portfolio_accounting (action : TradeAction) (q price cash sharesHeld : ℚ) :
    execTrade action q price cash sharesHeld =
      portfolioAccountingSpec action q price cash sharesHeld := by
  cases action <;> rfl

/-- C2 (counterexample): as stated, the cash-nonnegativity part of the
claim fails on the code — nothing prevents a sell at a negative close
from driving cash below zero. With the component's fixed starting cash
10000, 100 initial shares, and a quote series whose second close is
-200, the sell day logs cash = -10000. -/
theorem sim_cash_nonneg_counterexample :
    ∃ log finalValue,
      runSimulation initialCash 100 tradeSize sellOracle negPriceQuotes =
        .ok (log, finalValue) ∧ ∃ e ∈ log, e.cash < 0 := by
  refine ⟨[{ date := "Start", price := 1, signal := none, action := none,
             sharesTraded := none, sharesHeld := 100, cash := 10000,
             portfolioValue := 10100, reason := none, error := none },
           { date := "d1", price := -200, signal := some .bearish,
             action := some .sell, sharesTraded := some (-100), sharesHeld := 0,
             cash := -10000, portfolioValue := -10000, reason := some "r2",
             error := none }], -10000, ?_,
         { date := "d1", price := -200, signal := some .bearish,
           action := some .sell, sharesTraded := some (-100), sharesHeld := 0,
           cash := -10000, portfolioValue := -10000, reason := some "r2",
           error := none }, by simp, by norm_num⟩
  simp only [runSimulation, runDays, simStep, dayPipeline, execTrade, tradeSize,
    initialCash, sellOracle, negPriceQuotes, okDay, scenarioSellSignal, bind, Except.bind]
  norm_num
  have hne : (TradeAction.sell = TradeAction.hold) = False := by
    simp
  norm_num [hne]

/-- C2 (amended): for every run started with nonnegative cash and
shares whose quote closes are all nonnegative, every log entry has
`sharesHeld ≥ 0` and `cash ≥ 0`, and an entry logs an executed buy only
when the previous entry's cash covered `Q*price` at that day's close
(with the component's fixed trade size `Q = 100`). -/
theorem sim_nonneg_invariant (initCash initShares : ℚ) (oracle : Nat → DayOracle)
    (quotes : List HistoricalQuote) (log : List SimulationDayLog) (finalValue : ℚ)
    (hc : 0 ≤ initCash) (hs : 0 ≤ initShares)
    (hprices : ∀ q ∈ quotes, 0 ≤ q.close)
    (hrun : runSimulation initCash initShares tradeSize oracle quotes = .ok (log, finalValue)) :
    (∀ e ∈ log, 0 ≤ e.sharesHeld ∧ 0 ≤ e.cash) ∧
    (∀ i, 1 ≤ i → ∀ (hi : i < log.length),
      (log.get ⟨i, hi⟩).action = some .buy →
      tradeSize * (log.get ⟨i, hi⟩).price ≤ (log.get ⟨i - 1, by omega⟩).cash) := by
  obtain ⟨q0, rest, rfl, hne, rfl⟩ :=
    runSimulation_ok_shape initCash initShares tradeSize oracle _ log finalValue hrun
  have hQ : (0:ℚ) ≤ tradeSize := by norm_num [tradeSize]
  constructor
  · intro e he
    rcases List.mem_cons.1 he with rfl | he
    · exact ⟨hs, hc⟩
    · exact runDays_mem_nonneg tradeSize oracle hQ rest 1 initCash initShares
        (fun q hq => hprices q (List.mem_cons_of_mem q0 hq)) hc hs e he
  · intro i h1 hi hbuy
    obtain ⟨j, rfl⟩ : ∃ j, i = j + 1 := ⟨i - 1, by omega⟩
    have hj : j < ((runDays tradeSize oracle rest 1 initCash initShares).1).length := by
      simpa using hi
    set L := (runDays tradeSize oracle rest 1 initCash initShares).1 with hL
    have hgetj : L.get? j = some (L.get ⟨j, hj⟩) := List.get?_eq_get hj
    obtain ⟨quote, cj, sj, hquote, hstep, hzero, hsucc⟩ :=
      runDays_get? tradeSize oracle rest 1 initCash initShares j (L.get ⟨j, hj⟩) hgetj
    have hbuy' : ((simStep tradeSize (oracle (1 + j)) quote cj sj).1).action = some .buy := by
      rw [hstep]
      exact hbuy
    have hguard : tradeSize * quote.close ≤ cj :=
      simStep_buy_guard tradeSize (oracle (1 + j)) quote cj sj hbuy'
    have hprice : (L.get ⟨j, hj⟩).price = quote.close := by
      rw [← hstep]
      exact simStep_entry_price tradeSize (oracle (1 + j)) quote cj sj
    have hgoalprice : tradeSize * (L.get ⟨j, hj⟩).price ≤ cj := by
      rw [hprice]
      exact hguard
    cases j with
    | zero =>
      obtain ⟨rfl, rfl⟩ := hzero rfl
      exact hgoalprice
    | succ jj =>
      obtain ⟨ep, hep, hcash, _⟩ := hsucc jj rfl
      obtain ⟨hjj, hepg⟩ := List.get?_eq_some.1 hep
      have hgoal2 : tradeSize * (L.get ⟨jj + 1, hj⟩).price ≤ (L.get ⟨jj, hjj⟩).cash := by
        rw [hepg, hcash]
        exact hgoalprice
      exact hgoal2

/-- C3: for every entry appended to the simulation log — the synthetic
Start entry included, trade or no trade, error or no error — the logged
`portfolioValue` equals the logged `cash` plus the logged `sharesHeld`
times the entry's logged `price`. -/
theorem sim_value_reconciliation (initCash initShares Q : ℚ) (oracle : Nat → DayOracle)
    (quotes : List HistoricalQuote) (log : List SimulationDayLog) (finalValue : ℚ)
    (hrun : runSimulation initCash initShares Q oracle quotes = .ok (log, finalValue)) :
    ∀ e ∈ log, e.portfolioValue = e.cash + e.sharesHeld * e.price := by
  obtain ⟨q0, rest, rfl, hne, rfl⟩ :=
    runSimulation_ok_shape initCash initShares Q oracle _ log finalValue hrun
  intro e he
  rcases List.mem_cons.1 he with rfl | he
  · rfl
  · exact runDays_mem_value Q oracle rest 1 initCash initShares e he

/-- C4: if day `i`'s pipeline fails, day `i`'s log entry records the
error with zero shares traded, its cash and shares are those of the
previous entry, and the simulation still logs one entry per quote (the
failure never terminates the run). -/
theorem sim_day_failure_isolation (initCash initShares Q : ℚ) (oracle : Nat → DayOracle)
    (quotes : List HistoricalQuote) (log : List SimulationDayLog) (finalValue : ℚ)
    (i : Nat) (msg : String)
    (hrun : runSimulation initCash initShares Q oracle quotes = .ok (log, finalValue))
    (h1 : 1 ≤ i) (hi : i < log.length)
    (herr : dayPipeline (oracle i) = .error msg) :
    (log.get ⟨i, hi⟩).error =
        some (if msg.isEmpty then "An error occurred this day." else msg) ∧
    (log.get ⟨i, hi⟩).sharesTraded = some 0 ∧
    (log.get ⟨i, hi⟩).cash = (log.get ⟨i - 1, by omega⟩).cash ∧
    (log.get ⟨i, hi⟩).sharesHeld = (log.get ⟨i - 1, by omega⟩).sharesHeld ∧
    log.length = quotes.length := by
  obtain ⟨q0, rest, rfl, hne, rfl⟩ :=
    runSimulation_ok_shape initCash initShares Q oracle _ log finalValue hrun
  obtain ⟨j, rfl⟩ : ∃ j, i = j + 1 := ⟨i - 1, by omega⟩
  have hj : j < ((runDays Q oracle rest 1 initCash initShares).1).length := by
    simpa using hi
  set L := (runDays Q oracle rest 1 initCash initShares).1 with hL
  obtain ⟨quote, cj, sj, hquote, hstep, hzero, hsucc⟩ :=
    runDays_get? Q oracle rest 1 initCash initShares j (L.get ⟨j, hj⟩)
      (List.get?_eq_get hj)
  have herr' : dayPipeline (oracle (1 + j)) = .error msg := by
    rwa [Nat.add_comm]
  have hentry : L.get ⟨j, hj⟩ =
      { date := quote.date, price := quote.close, signal := none, action := none,
        sharesTraded := some 0, sharesHeld := sj, cash := cj,
        portfolioValue := cj + sj * quote.close, reason := none,
        error := some (if msg.isEmpty then "An error occurred this day." else msg) } := by
    rw [← hstep, simStep_error_eq Q (oracle (1 + j)) quote cj sj msg herr']
  have hlen : L.length = rest.length := runDays_length Q oracle rest 1 initCash initShares
  refine ⟨?_, ?_, ?_, ?_, ?_⟩
  · exact congrArg SimulationDayLog.error hentry
  · exact congrArg SimulationDayLog.sharesTraded hentry
  · cases j with
    | zero =>
      obtain ⟨rfl, rfl⟩ := hzero rfl
      have hcz : (L.get ⟨0, hj⟩).cash = cj := by rw [hentry]
      exact hcz
    | succ jj =>
      obtain ⟨ep, hep, hcash, _⟩ := hsucc jj rfl
      obtain ⟨hjj, hepg⟩ := List.get?_eq_some.1 hep
      have : (L.get ⟨jj + 1, hj⟩).cash = (L.get ⟨jj, hjj⟩).cash := by
        rw [hentry, hepg, hcash]
      exact this
  · cases j with
    | zero =>
      obtain ⟨rfl, rfl⟩ := hzero rfl
      have hsz : (L.get ⟨0, hj⟩).sharesHeld = sj := by rw [hentry]
      exact hsz
    | succ jj =>
      obtain ⟨ep, hep, hcash, hshares⟩ := hsucc jj rfl
      obtain ⟨hjj, hepg⟩ := List.get?_eq_some.1 hep
      have : (L.get ⟨jj + 1, hj⟩).sharesHeld = (L.get ⟨jj, hjj⟩).sharesHeld := by
        rw [hentry, hepg, hshares]
      exact this
  · simp [← hL, hlen]

/-- C5: the end-to-end scenario — 3 quotes (100, 105, 95), cash 10000,
no initial shares, Q = 100, signals [buy, sell] — downgrades the d1 buy
(10500 > 10000) and the d2 sell (no shares) to hold, logs both days at
cash 10000, 0 shares, value 10000 (action suppressed to "no position to
hold"), and ends flat at the starting cash. -/
theorem sim_end_to_end_scenario :
    runSimulation 10000 0 tradeSize scenarioOracle scenarioQuotes =
      .ok ([{ date := "Start", price := 100, signal := none, action := none,
              sharesTraded := none, sharesHeld := 0, cash := 10000,
              portfolioValue := 10000, reason := none, error := none },
            { date := "d1", price := 105, signal := some .bullish, action := none,
              sharesTraded := some 0, sharesHeld := 0, cash := 10000,
              portfolioValue := 10000, reason := some "r1", error := none },
            { date := "d2", price := 95, signal := some .bearish, action := none,
              sharesTraded := some 0, sharesHeld := 0, cash := 10000,
              portfolioValue := 10000, reason := some "r2", error := none }],
           initialCash) := by
  simp only [runSimulation, runDays, simStep, dayPipeline, execTrade, tradeSize,
    initialCash, scenarioOracle, scenarioQuotes, okDay, scenarioBuySignal,
    scenarioSellSignal, bind, Except.bind]
  norm_num
  decide

/-- Witness for `sim_nonneg_invariant` at a concrete run executing a buy. -/
theorem sim_nonneg_invariant_witness :
    (∀ e ∈ witnessBuyLog, 0 ≤ e.sharesHeld ∧ 0 ≤ e.cash) ∧
    (∀ i, 1 ≤ i → ∀ (hi : i < witnessBuyLog.length),
      (witnessBuyLog.get ⟨i, hi⟩).action = some .buy →
      tradeSize * (witnessBuyLog.get ⟨i, hi⟩).price ≤
        (witnessBuyLog.get ⟨i - 1, by omega⟩).cash) :=
  sim_nonneg_invariant 10000 0 scenarioOracle witnessQuotes witnessBuyLog 10000
    (by norm_num) (by norm_num) (by norm_num [witnessQuotes])
    (by
      simp only [runSimulation, runDays, simStep, dayPipeline, execTrade, tradeSize,
        scenarioOracle, witnessQuotes, okDay, scenarioBuySignal, bind, Except.bind,
        witnessBuyLog]
      norm_num
      exact ⟨by simp, by simp⟩)

/-- Witness for `sim_value_reconciliation` at a concrete failing-day run,
instantiated at that run's errored day entry. -/
theorem sim_value_reconciliation_witness :
    (witnessErrLog.get ⟨1, by norm_num [witnessErrLog]⟩).portfolioValue =
      (witnessErrLog.get ⟨1, by norm_num [witnessErrLog]⟩).cash +
        (witnessErrLog.get ⟨1, by norm_num [witnessErrLog]⟩).sharesHeld *
          (witnessErrLog.get ⟨1, by norm_num [witnessErrLog]⟩).price :=
  sim_value_reconciliation 10000 0 tradeSize failOracle witnessQuotes witnessErrLog 10000
    (by
      simp only [runSimulation, runDays, simStep, dayPipeline, execTrade, tradeSize,
        failOracle, fetchFailDay, witnessQuotes, witnessErrLog, bind, Except.bind]
      norm_num
      decide)
    (witnessErrLog.get ⟨1, by norm_num [witnessErrLog]⟩)
    (List.get_mem witnessErrLog 1 (by norm_num [witnessErrLog]))

/-- Witness for `sim_day_failure_isolation` at the same failing-day run. -/
theorem sim_day_failure_isolation_witness :
    (witnessErrLog.get ⟨1, by norm_num [witnessErrLog]⟩).error = some "boom" ∧
    (witnessErrLog.get ⟨1, by norm_num [witnessErrLog]⟩).sharesTraded = some 0 ∧
    (witnessErrLog.get ⟨1, by norm_num [witnessErrLog]⟩).cash =
      (witnessErrLog.get ⟨0, by norm_num [witnessErrLog]⟩).cash ∧
    (witnessErrLog.get ⟨1, by norm_num [witnessErrLog]⟩).sharesHeld =
      (witnessErrLog.get ⟨0, by norm_num [witnessErrLog]⟩).sharesHeld ∧
    witnessErrLog.length = witnessQuotes.length :=
  sim_day_failure_isolation 10000 0 tradeSize failOracle witnessQuotes witnessErrLog
    10000 1 "boom"
    (by
      simp only [runSimulation, runDays, simStep, dayPipeline, execTrade, tradeSize,
        failOracle, fetchFailDay, witnessQuotes, witnessErrLog, bind, Except.bind]
      norm_num
      decide)
    (by norm_num) (by norm_num [witnessErrLog]) rfl
